import Mathlib

/-!
Shallow embedding of the rtlamr rtl-sdr acquisition pipeline (recv-sdr.go).

The embedded code is `Receiver.Run` and `main` from recv-sdr.go: the
block-oriented decode loop (read block, decode, filter, log, archive,
check termination), the single-observation completion logic over the
meter-identifier set, and the deferred shutdown sequence in `main`.

Parts of the repository referenced by recv-sdr.go but not present under
src/ are modelled from the spec and are marked as such in their doc
comments: the filter chain and concrete filters (parse.FilterChain,
UniqueFilter, MeterIDFilter, MeterTypeFilter), `HandleFlags`, the decode
package's raw sample window, and the pluggable log encoders.

Modelling decisions:
- Machine integers are Nat; no overflow is relevant (identifiers, byte
  counts).
- The sample stream bridge (io.Pipe fed by the async callback) is
  modelled as a script of events (`Ev`): each loop iteration either sees
  a pending interrupt, a pending time-limit expiry, a short read
  (io.ReadFull failure), or a successfully read block together with the
  candidate messages the decoder yields for it and flags saying whether
  the log-encode and archive-write calls of that iteration succeed.
- `log.Fatal` calls os.Exit: the process terminates immediately and
  deferred functions do not run; this is modelled by the `fatal`
  outcomes, after which `mainRun` emits no further actions.
- The raw-sample archive (sampleFile) is modelled by the list of byte
  counts of its successive writes; the file position returned by
  Seek(0, os.SEEK_CUR) is the sum of that list.
- Wall-clock times (LogMessage.Time) are not modelled; no claim depends
  on them.
-/

/-- A decoded candidate message (parse.Message): exposes the meter
identifier `MeterID`, the meter type `MeterType`, and an identity key
`key` used by the dedup (unique) filter. -/
structure Pkt where
  MeterID : Nat
  MeterType : Nat
  key : Nat
deriving DecidableEq, Repr

/-- Static per-run configuration, assembled from the command-line flags
and the parser configuration used by recv-sdr.go:
`single` (-single flag), `unique`/`filterid`/`filtertype` (which filters
flag.Visit registers), `archiveEnabled` (sampleFilename differs from
os.DevNull), `xml` (the active encoder is an xml.Encoder),
`bufferLength` (parser Cfg().BufferLength, in samples), `meterIDs` (the
keys of meterID.UintMap as configured), `meterTypes` (the meter-type
filter set). -/
structure Cfg where
  single : Bool
  unique : Bool
  filterid : Bool
  filtertype : Bool
  archiveEnabled : Bool
  xml : Bool
  bufferLength : Nat
  meterIDs : List Nat
  meterTypes : List Nat
deriving DecidableEq, Repr

/-- Modelled from the spec: the decode package is not under src/.
recv-sdr.go sets the log record length to `Cfg().BufferLength << 1` and
archives the decoder's raw sample window `Dec().IQ`; per the spec the
record length is the number of raw bytes of one processed block (two
bytes per I/Q sample), so the raw window's byte count is
`bufferLength <<< 1`. -/
def rawBlockBytes (cfg : Cfg) : Nat :=
  cfg.bufferLength <<< 1

/-- The log record (parse.LogMessage) without the wall-clock timestamp:
`Offset` is the archive file position read before the block's write,
`Length` is the raw byte count of one block, `Message` the packet. -/
structure LogMessage where
  Offset : Nat
  Length : Nat
  Message : Pkt
deriving DecidableEq, Repr

/-- One unit written to the log sink: an encoded record, or the record
separator (the newline recv-sdr.go appends after each record when the
encoder is an xml.Encoder). -/
inductive LogItem where
  | record (m : LogMessage)
  | sep
deriving DecidableEq, Repr

/-- Modelled from the spec: MeterIDFilter is not under src/. It accepts
a message iff the configured identifier set is empty (accept all) or
contains the message's identifier. In recv-sdr.go the identifier set is
`meterID.UintMap`, the very map mutated by single-observation mode, so
the filter is evaluated against the current (mutable) set. -/
def meterIDMatch (s : List Nat) (p : Pkt) : Bool :=
  s.isEmpty || s.contains p.MeterID

/-- Modelled from the spec: MeterTypeFilter is not under src/. Same
contract as the identifier filter, keyed on the message type tag. -/
def meterTypeMatch (cfg : Cfg) (p : Pkt) : Bool :=
  cfg.meterTypes.isEmpty || cfg.meterTypes.contains p.MeterType

/-- Modelled from the spec: parse.FilterChain and UniqueFilter are not
under src/. The chain is conjunctive and short-circuiting; registration
order follows flag.Visit in recv-sdr.go, which visits flags in lexical
flag-name order (filterid, filtertype, unique). The unique filter
records a message's key when it itself accepts, and rejects keys seen
before. `seen` is the unique filter's history; the result is the chain
verdict together with the updated history (unchanged on rejection,
since the unique filter runs last and records only on accept). -/
def fcMatch (cfg : Cfg) (seen ms : List Nat) (p : Pkt) : Bool × List Nat :=
  if cfg.filterid && !(meterIDMatch ms p) then (false, seen)
  else if cfg.filtertype && !(meterTypeMatch cfg p) then (false, seen)
  else if cfg.unique then
    (if seen.contains p.key then (false, seen) else (true, p.key :: seen))
  else (true, seen)

/-- The log items emitted for one accepted message at archive position
`pos`: the encoded record (lines 145-154 of recv-sdr.go), followed by
the separator when the encoder is an xml.Encoder (lines 156-160). -/
def renderOne (cfg : Cfg) (pos : Nat) (p : Pkt) : List LogItem :=
  LogItem.record ⟨pos, rawBlockBytes cfg, p⟩ ::
    (if cfg.xml then [LogItem.sep] else [])

/-- Log items for a list of accepted messages, all at the same archive
position (the position is read before the block's archive write, so it
is the same for every message of a block). -/
def renderAll (cfg : Cfg) (pos : Nat) : List Pkt → List LogItem
  | [] => []
  | p :: rest => renderOne cfg pos p ++ renderAll cfg pos rest

/-- Result of the per-message loop of one block (lines 140-170 of
recv-sdr.go): the unique filter history, the meter-identifier set, the
log items emitted for this block, and the pktFound flag. -/
structure MRes where
  seen : List Nat
  meterSet : List Nat
  items : List LogItem
  found : Bool
deriving DecidableEq, Repr

/-- The per-message loop of Receiver.Run (lines 140-170 of recv-sdr.go):
for each candidate, evaluate the filter chain (skip on rejection), emit
the log record (Encode failure, modelled by `encOk = false`, is fatal:
`none`), append the xml separator when needed, set pktFound, and in
single-observation mode break out of the loop if the identifier set is
already empty, otherwise delete the message's identifier from it. -/
def msgLoop (cfg : Cfg) (pos : Nat) (encOk : Bool) (seen ms : List Nat)
    (found : Bool) : List Pkt → Option MRes
  | [] => some ⟨seen, ms, [], found⟩
  | p :: rest =>
    if (fcMatch cfg seen ms p).1 then
      if encOk then
        if cfg.single then
          if ms.isEmpty then
            some ⟨(fcMatch cfg seen ms p).2, ms, renderOne cfg pos p, true⟩
          else
            (msgLoop cfg pos encOk (fcMatch cfg seen ms p).2
                (ms.filter (fun x => x != p.MeterID)) true rest).map
              (fun r => ⟨r.seen, r.meterSet, renderOne cfg pos p ++ r.items, r.found⟩)
        else
          (msgLoop cfg pos encOk (fcMatch cfg seen ms p).2 ms true rest).map
            (fun r => ⟨r.seen, r.meterSet, renderOne cfg pos p ++ r.items, r.found⟩)
      else none
    else msgLoop cfg pos encOk (fcMatch cfg seen ms p).2 ms found rest

/-- The subsequence of a block's candidates that the message loop
accepts (projection of `msgLoop`): candidates rejected by the chain are
skipped, and in single-observation mode the scan stops at the first
acceptance made with an already-empty identifier set. -/
def acceptedPkts (cfg : Cfg) (seen ms : List Nat) : List Pkt → List Pkt
  | [] => []
  | p :: rest =>
    if (fcMatch cfg seen ms p).1 then
      if cfg.single then
        if ms.isEmpty then [p]
        else p :: acceptedPkts cfg (fcMatch cfg seen ms p).2
              (ms.filter (fun x => x != p.MeterID)) rest
      else p :: acceptedPkts cfg (fcMatch cfg seen ms p).2 ms rest
    else acceptedPkts cfg (fcMatch cfg seen ms p).2 ms rest

/-- Mutable state of one run: the unique filter history, the
meter-identifier set (meterID.UintMap), the log sink output so far, and
the archive file contents as the byte counts of its successive writes
(file position = sum). -/
structure RState where
  seen : List Nat
  meterSet : List Nat
  out : List LogItem
  archive : List Nat
deriving DecidableEq, Repr

/-- Outcome of processing one block in Receiver.Run: continue looping,
return normally (single-observation completion), or terminate the
process via log.Fatal. -/
inductive Step where
  | cont (st : RState)
  | stop (st : RState)
  | fatal (st : RState)
deriving DecidableEq, Repr

/-- One iteration of the receive loop for a successfully read block
(lines 137-182 of recv-sdr.go): run the per-message loop with the
archive position read at the current file offset; if any message was
accepted, append the raw sample window to the archive once (unless the
destination is the discard target; a write failure, `wrOk = false`, is
fatal), then return if single-observation mode has emptied the
identifier set. -/
def blockStep (cfg : Cfg) (st : RState) (pkts : List Pkt)
    (encOk wrOk : Bool) : Step :=
  match msgLoop cfg st.archive.sum encOk st.seen st.meterSet false pkts with
  | none => Step.fatal st
  | some r =>
    if r.found then
      if cfg.archiveEnabled && !wrOk then
        Step.fatal ⟨r.seen, r.meterSet, st.out ++ r.items, st.archive⟩
      else if cfg.single && r.meterSet.isEmpty then
        Step.stop ⟨r.seen, r.meterSet, st.out ++ r.items,
          if cfg.archiveEnabled then st.archive ++ [rawBlockBytes cfg] else st.archive⟩
      else
        Step.cont ⟨r.seen, r.meterSet, st.out ++ r.items,
          if cfg.archiveEnabled then st.archive ++ [rawBlockBytes cfg] else st.archive⟩
    else Step.cont ⟨r.seen, r.meterSet, st.out ++ r.items, st.archive⟩

/-- One event seen by a loop iteration of Receiver.Run: a pending
interrupt signal, a pending time-limit expiry, a short read from the
sample pipe, or a full block carrying the candidate messages the
decoder yields for it plus the success flags of that iteration's
log-encode and archive-write calls. -/
inductive Ev where
  | sigint
  | tlimit
  | shortRead
  | block (pkts : List Pkt) (encOk wrOk : Bool)
deriving DecidableEq, Repr

/-- How Receiver.Run ended: `normal` (plain return: interrupt, time
limit, or single-observation completion), `fatal` (log.Fatal: the
process exits immediately, skipping deferred functions), or `running`
(the event script was exhausted with the loop still going). -/
inductive Outcome where
  | normal (st : RState)
  | fatal (st : RState)
  | running (st : RState)
deriving DecidableEq, Repr

/-- The final pipeline state of an outcome. -/
def Outcome.state : Outcome → RState
  | Outcome.normal st => st
  | Outcome.fatal st => st
  | Outcome.running st => st

/-- Whether the outcome is a log.Fatal termination. -/
def Outcome.isFatal : Outcome → Bool
  | Outcome.fatal _ => true
  | _ => false

/-- The receive loop of Receiver.Run (lines 122-184 of recv-sdr.go)
over a script of events: the select exits on a pending interrupt or
time limit; a short read is fatal; otherwise the block is processed by
`blockStep`. -/
def runLoop (cfg : Cfg) (st : RState) : List Ev → Outcome
  | [] => Outcome.running st
  | ev :: rest =>
    match ev with
    | Ev.sigint => Outcome.normal st
    | Ev.tlimit => Outcome.normal st
    | Ev.shortRead => Outcome.fatal st
    | Ev.block pkts encOk wrOk =>
      match blockStep cfg st pkts encOk wrOk with
      | Step.cont st' => runLoop cfg st' rest
      | Step.stop st' => Outcome.normal st'
      | Step.fatal st' => Outcome.fatal st'

/-- An event is a successfully processed block: a full read whose
log-encode and archive-write calls succeed. -/
def evOk : Ev → Bool
  | Ev.block _ encOk wrOk => encOk && wrOk
  | _ => false

/-- The pipeline state at startup: empty unique-filter history, the
configured identifier set, empty log output, empty archive. -/
def initState (cfg : Cfg) : RState :=
  ⟨[], cfg.meterIDs, [], []⟩

/-- Modelled from the spec: HandleFlags is not under src/ (only its
call site in main is). Per the spec, startup fails fast with a
configuration error when single-observation mode is requested but no
identifier set was configured; HandleFlags runs before
Receiver.NewReceiver opens the device. -/
def handleFlagsOk (cfg : Cfg) : Bool :=
  !(cfg.single && cfg.meterIDs.isEmpty)

/-- Observable lifecycle actions of main: opening the device handle in
NewReceiver, and the steps of the deferred shutdown function (close the
log sink, close the raw-sample archive, issue CancelAsync, CancelAsync
returning, close the device handle). -/
inductive Act where
  | openDev
  | closeLog
  | closeSample
  | cancelAsync
  | cancelReturned
  | closeDevice
deriving DecidableEq, Repr

/-- The deferred shutdown sequence of main (lines 216-228 of
recv-sdr.go): close logFile, close sampleFile, call CancelAsync and
wait for it to return; if it returned an error, log.Fatal exits without
closing the device, otherwise the device is closed. -/
def shutdownActions (cancelOk : Bool) : List Act :=
  [Act.closeLog, Act.closeSample, Act.cancelAsync, Act.cancelReturned] ++
    (if cancelOk then [Act.closeDevice] else [])

/-- The action trace of main (lines 196-231 of recv-sdr.go):
HandleFlags (config errors abort before any hardware is touched), then
NewReceiver (parser construction failure, `parserOk = false`, aborts
before the device is opened; device-configuration failure,
`confOk = false`, is a log.Fatal after opening), then the deferred
shutdown is registered and Receiver.Run executes. The deferred shutdown
runs only when Run returns normally; a log.Fatal inside Run exits the
process immediately and the deferred function never runs. -/
def mainRun (cfg : Cfg) (evs : List Ev) (parserOk confOk cancelOk : Bool) :
    List Act :=
  if !handleFlagsOk cfg then []
  else if !parserOk then []
  else
    Act.openDev ::
      (if !confOk then []
       else
         match runLoop cfg (initState cfg) evs with
         | Outcome.normal _ => shutdownActions cancelOk
         | Outcome.fatal _ => []
         | Outcome.running _ => [])

/-- Modelled from the spec: the log encoder implementations are not
under src/. A sink is characterised by whether it is the XML encoder
and by its declared need for a record separator after each encoded
record; per the spec exactly one format variant (XML) requires the
separator. -/
structure Sink where
  isXML : Bool
  needsSeparator : Bool
deriving DecidableEq, Repr

/-- Whether recv-sdr.go writes a record separator after an encoded
record for the given sink: line 158 tests whether the encoder is an
xml.Encoder (a dynamic type test, not a capability query). -/
def writesSeparator (s : Sink) : Bool :=
  s.isXML

/-- Number of encoded records in a list of log items. -/
def recCount : List LogItem → Nat
  | [] => 0
  | LogItem.record _ :: t => recCount t + 1
  | LogItem.sep :: t => recCount t

/-- Number of record separators in a list of log items. -/
def sepCount : List LogItem → Nat
  | [] => 0
  | LogItem.sep :: t => sepCount t + 1
  | LogItem.record _ :: t => sepCount t

/-- A sample packet: meter 42. -/
def pktA : Pkt := ⟨42, 7, 1⟩

/-- A sample packet: meter 99. -/
def pktB : Pkt := ⟨99, 7, 2⟩

/-- A sample configuration: single-observation mode targeting meter 42,
identifier filter active, archiving enabled, non-XML sink, 8-sample
buffer. -/
def cfgSingle : Cfg := ⟨true, false, true, false, true, false, 8, [42], []⟩

/-- A sample configuration: no single-observation mode, no filters,
archiving enabled, non-XML sink, 8-sample buffer. -/
def cfgPlain : Cfg := ⟨false, false, false, false, true, false, 8, [], []⟩

/-- A sample configuration: single-observation mode requested with an
empty identifier set (the misconfiguration of claim C2). -/
def cfgSingleEmpty : Cfg := ⟨true, false, false, false, true, false, 8, [], []⟩

/-- A sample configuration: XML encoder active, no filters, archiving
enabled, 8-sample buffer. -/
def cfgXml : Cfg := ⟨false, false, false, false, true, true, 8, [], []⟩

theorem fcMatch_false_seen (cfg : Cfg) (seen ms : List Nat) (p : Pkt)
    (h : (fcMatch cfg seen ms p).1 = false) :
    (fcMatch cfg seen ms p).2 = seen := by
  by_cases h1 : cfg.filterid && !(meterIDMatch ms p) <;>
    by_cases h2 : cfg.filtertype && !(meterTypeMatch cfg p) <;>
      by_cases h3 : cfg.unique <;>
        by_cases h4 : seen.contains p.key <;>
          simp_all [fcMatch]

theorem recCount_append (a b : List LogItem) :
    recCount (a ++ b) = recCount a + recCount b := by
  induction a with
  | nil => simp [recCount]
  | cons x t ih =>
    cases x with
    | record m => simp [recCount, ih]; omega
    | sep => simp [recCount, ih]

theorem sepCount_append (a b : List LogItem) :
    sepCount (a ++ b) = sepCount a + sepCount b := by
  induction a with
  | nil => simp [sepCount]
  | cons x t ih =>
    cases x with
    | record m => simp [sepCount, ih]
    | sep => simp [sepCount, ih]; omega

theorem recCount_renderAll (cfg : Cfg) (pos : Nat) (l : List Pkt) :
    recCount (renderAll cfg pos l) = l.length := by
  induction l with
  | nil => rfl
  | cons p t ih =>
    cases hx : cfg.xml <;>
      simp [renderAll, renderOne, recCount, recCount_append, ih, hx]

theorem sepCount_renderAll (cfg : Cfg) (pos : Nat) (l : List Pkt) :
    sepCount (renderAll cfg pos l) = if cfg.xml then l.length else 0 := by
  induction l with
  | nil => cases hx : cfg.xml <;> simp [renderAll, sepCount, hx]
  | cons p t ih =>
    cases hx : cfg.xml <;>
      simp [renderAll, renderOne, sepCount, sepCount_append, ih, hx]

theorem append_singleton_ne (l : List Nat) (x : Nat) : ¬(l = l ++ [x]) := by
  intro h
  have hlen := congrArg List.length h
  simp at hlen

theorem msgLoop_run (cfg : Cfg) (pos : Nat) (pkts : List Pkt) :
    ∀ (seen ms : List Nat) (found : Bool),
      ∃ r, msgLoop cfg pos true seen ms found pkts = some r ∧
        r.items = renderAll cfg pos (acceptedPkts cfg seen ms pkts) ∧
        r.found = (found || !(acceptedPkts cfg seen ms pkts).isEmpty) ∧
        (r.found = false → r.meterSet = ms) := by
  induction pkts with
  | nil =>
    intro seen ms found
    exact ⟨⟨seen, ms, [], found⟩, rfl, by simp [acceptedPkts, renderAll],
      by simp [acceptedPkts], fun _ => rfl⟩
  | cons p rest ih =>
    intro seen ms found
    by_cases hm : (fcMatch cfg seen ms p).1 = true
    · by_cases hs : cfg.single = true
      · by_cases he : ms.isEmpty = true
        · refine ⟨⟨(fcMatch cfg seen ms p).2, ms, renderOne cfg pos p, true⟩,
            ?_, ?_, ?_, ?_⟩
          · simp [msgLoop, hm, hs, he]
          · simp [acceptedPkts, hm, hs, he, renderAll]
          · simp [acceptedPkts, hm, hs, he]
          · intro h; cases h
        · obtain ⟨r', hr', hitems, hfound, _⟩ :=
            ih (fcMatch cfg seen ms p).2 (ms.filter (fun x => x != p.MeterID)) true
          refine ⟨⟨r'.seen, r'.meterSet, renderOne cfg pos p ++ r'.items, r'.found⟩,
            ?_, ?_, ?_, ?_⟩
          · simp [msgLoop, hm, hs, he, hr']
          · simp [acceptedPkts, hm, hs, he, renderAll, hitems]
          · simp [acceptedPkts, hm, hs, he, hfound]
          · intro h; rw [hfound] at h; simp at h
      · obtain ⟨r', hr', hitems, hfound, _⟩ := ih (fcMatch cfg seen ms p).2 ms true
        refine ⟨⟨r'.seen, r'.meterSet, renderOne cfg pos p ++ r'.items, r'.found⟩,
          ?_, ?_, ?_, ?_⟩
        · simp [msgLoop, hm, hs, hr']
        · simp [acceptedPkts, hm, hs, renderAll, hitems]
        · simp [acceptedPkts, hm, hs, hfound]
        · intro h; rw [hfound] at h; simp at h
    · obtain ⟨r', hr', hitems, hfound, hms⟩ := ih (fcMatch cfg seen ms p).2 ms found
      refine ⟨r', ?_, ?_, ?_, ?_⟩
      · simp [msgLoop, hm, hr']
      · simp [acceptedPkts, hm, hitems]
      · simp [acceptedPkts, hm, hfound]
      · exact hms

theorem renderAll_mem (cfg : Cfg) (pos : Nat) (l : List Pkt) :
    ∀ m, LogItem.record m ∈ renderAll cfg pos l →
      m.Offset = pos ∧ m.Length = rawBlockBytes cfg := by
  induction l with
  | nil => intro m hm; simp [renderAll] at hm
  | cons p t ih =>
    intro m hm
    simp only [renderAll, renderOne] at hm
    rcases List.mem_append.mp hm with h1 | h2
    · rcases List.mem_cons.mp h1 with h3 | h4
      · cases h3; exact ⟨rfl, rfl⟩
      · cases hx : cfg.xml <;> rw [hx] at h4 <;> simp at h4
    · exact ih m h2

theorem msgLoop_false_items (cfg : Cfg) (pos : Nat) (pkts : List Pkt) :
    ∀ (seen ms : List Nat) (found : Bool) (r : MRes),
      msgLoop cfg pos false seen ms found pkts = some r → r.items = [] := by
  induction pkts with
  | nil =>
    intro seen ms found r hr
    simp only [msgLoop, Option.some.injEq] at hr
    rw [← hr]
  | cons p rest ih =>
    intro seen ms found r hr
    by_cases hmtc : (fcMatch cfg seen ms p).1 = true
    · simp [msgLoop, hmtc] at hr
    · simp only [msgLoop, hmtc, if_false, Bool.not_eq_true] at hr
      exact ih _ _ _ _ hr

theorem msgLoop_rec_shape (cfg : Cfg) (pos : Nat) (encOk : Bool) (pkts : List Pkt)
    (seen ms : List Nat) (found : Bool) (r : MRes)
    (hr : msgLoop cfg pos encOk seen ms found pkts = some r) :
    ∀ m, LogItem.record m ∈ r.items → m.Offset = pos ∧ m.Length = rawBlockBytes cfg := by
  intro m hm
  cases henc : encOk with
  | true =>
    subst henc
    obtain ⟨r', hr', hitems, _, _⟩ := msgLoop_run cfg pos pkts seen ms found
    rw [hr'] at hr
    injection hr with hrr
    rw [← hrr, hitems] at hm
    exact renderAll_mem cfg pos _ m hm
  | false =>
    subst henc
    rw [msgLoop_false_items cfg pos pkts seen ms found r hr] at hm
    simp at hm

theorem blockStep_true_eq (cfg : Cfg) (st : RState) (pkts : List Pkt) (r : MRes)
    (hr : msgLoop cfg st.archive.sum true st.seen st.meterSet false pkts = some r) :
    blockStep cfg st pkts true true =
      (if r.found then
        (if cfg.single && r.meterSet.isEmpty then
          Step.stop ⟨r.seen, r.meterSet, st.out ++ r.items,
            if cfg.archiveEnabled then st.archive ++ [rawBlockBytes cfg] else st.archive⟩
        else
          Step.cont ⟨r.seen, r.meterSet, st.out ++ r.items,
            if cfg.archiveEnabled then st.archive ++ [rawBlockBytes cfg] else st.archive⟩)
      else Step.cont ⟨r.seen, r.meterSet, st.out ++ r.items, st.archive⟩) := by
  simp [blockStep, hr]

theorem isEmpty_true_eq_nil {α : Type} (l : List α) (h : l.isEmpty = true) :
    l = [] := by
  cases l with
  | nil => rfl
  | cons a t => simp at h

theorem ne_nil_isEmpty_false {α : Type} (l : List α) (h : l ≠ []) :
    l.isEmpty = false := by
  cases l with
  | nil => exact absurd rfl h
  | cons a t => rfl

theorem filter_ne_not_contains (l : List Nat) (a : Nat) :
    (l.filter (fun x => x != a)).contains a = false := by
  induction l with
  | nil => rfl
  | cons b t ih =>
    by_cases hb : b = a
    · subst hb; simp [List.filter_cons, ih]
    · simp [List.filter_cons, hb, ih]
      exact fun h => hb h.symm

theorem blockStep_cases (cfg : Cfg) (st : RState) (pkts : List Pkt)
    (encOk wrOk : Bool) :
    blockStep cfg st pkts encOk wrOk = Step.fatal st ∨
    ∃ r, msgLoop cfg st.archive.sum encOk st.seen st.meterSet false pkts = some r ∧
      ∃ arc, (arc = st.archive ∨ arc = st.archive ++ [rawBlockBytes cfg]) ∧
        (blockStep cfg st pkts encOk wrOk =
            Step.cont ⟨r.seen, r.meterSet, st.out ++ r.items, arc⟩ ∨
         blockStep cfg st pkts encOk wrOk =
            Step.stop ⟨r.seen, r.meterSet, st.out ++ r.items, arc⟩ ∨
         blockStep cfg st pkts encOk wrOk =
            Step.fatal ⟨r.seen, r.meterSet, st.out ++ r.items, arc⟩) := by
  unfold blockStep
  cases hml : msgLoop cfg st.archive.sum encOk st.seen st.meterSet false pkts with
  | none => exact Or.inl rfl
  | some r =>
    right
    refine ⟨r, rfl, ?_⟩
    by_cases hf : r.found = true
    · by_cases hw : (cfg.archiveEnabled && !wrOk) = true
      · exact ⟨st.archive, Or.inl rfl, Or.inr (Or.inr (by simp [hf, hw]))⟩
      · by_cases hstop : (cfg.single && r.meterSet.isEmpty) = true
        · refine ⟨if cfg.archiveEnabled then st.archive ++ [rawBlockBytes cfg]
              else st.archive, ?_, Or.inr (Or.inl (by simp [hf, hw, hstop]))⟩
          cases cfg.archiveEnabled <;> simp
        · refine ⟨if cfg.archiveEnabled then st.archive ++ [rawBlockBytes cfg]
              else st.archive, ?_, Or.inl (by simp [hf, hw, hstop])⟩
          cases cfg.archiveEnabled <;> simp
    · exact ⟨st.archive, Or.inl rfl, Or.inl (by simp [hf])⟩

theorem blockStep_good (cfg : Cfg) (st : RState) (pkts : List Pkt)
    (encOk wrOk : Bool)
    (h1 : ∀ m, LogItem.record m ∈ st.out → m.Length = rawBlockBytes cfg)
    (h2 : ∀ w ∈ st.archive, w = rawBlockBytes cfg) (st' : RState)
    (hst : blockStep cfg st pkts encOk wrOk = Step.cont st' ∨
           blockStep cfg st pkts encOk wrOk = Step.stop st' ∨
           blockStep cfg st pkts encOk wrOk = Step.fatal st') :
    (∀ m, LogItem.record m ∈ st'.out → m.Length = rawBlockBytes cfg) ∧
    (∀ w ∈ st'.archive, w = rawBlockBytes cfg) := by
  rcases blockStep_cases cfg st pkts encOk wrOk with hfa | ⟨r, hml, arc, harcs, hcase⟩
  · have hst' : st' = st := by
      rcases hst with h | h | h <;> rw [hfa] at h <;>
        first
          | exact Step.noConfusion h
          | (injection h with hh; exact hh.symm)
    subst hst'
    exact ⟨h1, h2⟩
  · have hrs := msgLoop_rec_shape cfg st.archive.sum encOk pkts st.seen
      st.meterSet false r hml
    have hst' : st' = ⟨r.seen, r.meterSet, st.out ++ r.items, arc⟩ := by
      rcases hcase with hc | hc | hc <;> rcases hst with h | h | h <;>
        rw [hc] at h <;>
          first
            | exact Step.noConfusion h
            | (injection h with hh; exact hh.symm)
    subst hst'
    constructor
    · intro m hm
      rcases List.mem_append.mp hm with h | h
      · exact h1 m h
      · exact (hrs m h).2
    · intro w hw
      rcases harcs with ha | ha <;> subst ha
      · exact h2 w hw
      · rcases List.mem_append.mp hw with h | h
        · exact h2 w h
        · simpa using h

theorem runLoop_good (cfg : Cfg) (evs : List Ev) :
    ∀ st : RState,
      (∀ m, LogItem.record m ∈ st.out → m.Length = rawBlockBytes cfg) →
      (∀ w ∈ st.archive, w = rawBlockBytes cfg) →
      (∀ m, LogItem.record m ∈ ((runLoop cfg st evs).state).out →
         m.Length = rawBlockBytes cfg) ∧
      (∀ w ∈ ((runLoop cfg st evs).state).archive, w = rawBlockBytes cfg) := by
  induction evs with
  | nil => intro st h1 h2; exact ⟨h1, h2⟩
  | cons ev rest ih =>
    intro st h1 h2
    cases ev with
    | sigint => exact ⟨h1, h2⟩
    | tlimit => exact ⟨h1, h2⟩
    | shortRead => exact ⟨h1, h2⟩
    | block pkts encOk wrOk =>
      cases hb : blockStep cfg st pkts encOk wrOk with
      | cont st' =>
        have hg := blockStep_good cfg st pkts encOk wrOk h1 h2 st' (Or.inl hb)
        have hrun : runLoop cfg st (Ev.block pkts encOk wrOk :: rest) =
            runLoop cfg st' rest := by
          simp [runLoop, hb]
        rw [hrun]
        exact ih st' hg.1 hg.2
      | stop st' =>
        have hg := blockStep_good cfg st pkts encOk wrOk h1 h2 st' (Or.inr (Or.inl hb))
        have hrun : runLoop cfg st (Ev.block pkts encOk wrOk :: rest) =
            Outcome.normal st' := by
          simp [runLoop, hb]
        rw [hrun]
        exact hg
      | fatal st' =>
        have hg := blockStep_good cfg st pkts encOk wrOk h1 h2 st' (Or.inr (Or.inr hb))
        have hrun : runLoop cfg st (Ev.block pkts encOk wrOk :: rest) =
            Outcome.fatal st' := by
          simp [runLoop, hb]
        rw [hrun]
        exact hg

theorem blockStep_stop_empty (cfg : Cfg) (st : RState) (pkts : List Pkt)
    (st' : RState) (h : blockStep cfg st pkts true true = Step.stop st') :
    st'.meterSet = [] ∧
    st'.out = st.out ++
      renderAll cfg st.archive.sum (acceptedPkts cfg st.seen st.meterSet pkts) ∧
    (cfg.archiveEnabled = true → st'.archive = st.archive ++ [rawBlockBytes cfg]) := by
  obtain ⟨r, hml, hitems, hfound, hmsf⟩ :=
    msgLoop_run cfg st.archive.sum pkts st.seen st.meterSet false
  rw [blockStep_true_eq cfg st pkts r hml] at h
  split at h
  · split at h
    · injection h with hh
      rw [← hh]
      have hemp : r.meterSet.isEmpty = true := by
        rename_i hcond _
        exact (Bool.and_eq_true _ _).mp (by assumption) |>.2
      refine ⟨isEmpty_true_eq_nil _ hemp, by rw [hitems], ?_⟩
      intro hae
      simp [hae]
    · exact Step.noConfusion h
  · exact Step.noConfusion h

theorem blockStep_single_cases (cfg : Cfg) (hs : cfg.single = true) (st : RState)
    (hne : st.meterSet ≠ []) (pkts : List Pkt) :
    (∃ st', blockStep cfg st pkts true true = Step.stop st' ∧ st'.meterSet = []) ∨
    (∃ st', blockStep cfg st pkts true true = Step.cont st' ∧ st'.meterSet ≠ []) := by
  obtain ⟨r, hml, hitems, hfound, hmsf⟩ :=
    msgLoop_run cfg st.archive.sum pkts st.seen st.meterSet false
  rw [blockStep_true_eq cfg st pkts r hml]
  by_cases hf : r.found = true
  · by_cases hemp : r.meterSet.isEmpty = true
    · left
      refine ⟨⟨r.seen, r.meterSet, st.out ++ r.items,
          if cfg.archiveEnabled then st.archive ++ [rawBlockBytes cfg]
          else st.archive⟩, ?_, isEmpty_true_eq_nil _ hemp⟩
      simp [hf, hs, hemp]
    · right
      refine ⟨⟨r.seen, r.meterSet, st.out ++ r.items,
          if cfg.archiveEnabled then st.archive ++ [rawBlockBytes cfg]
          else st.archive⟩, ?_, ?_⟩
      · simp [hf, hs, hemp]
      · intro hnil
        have hnil2 : r.meterSet = [] := hnil
        rw [hnil2] at hemp
        simp at hemp
  · right
    refine ⟨⟨r.seen, r.meterSet, st.out ++ r.items, st.archive⟩, by simp [hf], ?_⟩
    rw [hmsf (by simpa using hf)]
    exact hne

theorem runLoop_single_inv (cfg : Cfg) (hs : cfg.single = true) (evs : List Ev) :
    ∀ st : RState, st.meterSet ≠ [] → evs.all evOk = true →
      (∀ st', runLoop cfg st evs = Outcome.normal st' → st'.meterSet = []) ∧
      (∀ st', runLoop cfg st evs = Outcome.running st' → st'.meterSet ≠ []) ∧
      (∀ st', runLoop cfg st evs = Outcome.fatal st' → False) := by
  induction evs with
  | nil =>
    intro st hne _
    refine ⟨?_, ?_, ?_⟩ <;> intro st' h
    · exact Outcome.noConfusion h
    · injection h with hh
      rw [← hh]
      exact hne
    · exact Outcome.noConfusion h
  | cons ev rest ih =>
    intro st hne hok
    rw [List.all_cons, Bool.and_eq_true] at hok
    obtain ⟨hev, hrest⟩ := hok
    cases ev with
    | sigint => simp [evOk] at hev
    | tlimit => simp [evOk] at hev
    | shortRead => simp [evOk] at hev
    | block pkts encOk wrOk =>
      rw [evOk, Bool.and_eq_true] at hev
      obtain ⟨he1, he2⟩ := hev
      subst he1
      subst he2
      rcases blockStep_single_cases cfg hs st hne pkts with
        ⟨st', hbs, hempty⟩ | ⟨st', hbs, hne'⟩
      · have hrun : runLoop cfg st (Ev.block pkts true true :: rest) =
            Outcome.normal st' := by
          simp [runLoop, hbs]
        refine ⟨?_, ?_, ?_⟩ <;> intro st'' h <;> rw [hrun] at h
        · injection h with hh
          rw [← hh]
          exact hempty
        · exact Outcome.noConfusion h
        · exact Outcome.noConfusion h
      · have hrun : runLoop cfg st (Ev.block pkts true true :: rest) =
            runLoop cfg st' rest := by
          simp [runLoop, hbs]
        refine ⟨?_, ?_, ?_⟩ <;> intro st'' h <;> rw [hrun] at h
        · exact (ih st' hne' hrest).1 st'' h
        · exact (ih st' hne' hrest).2.1 st'' h
        · exact (ih st' hne' hrest).2.2 st'' h

/-- C9: a processed block that yields no candidate messages writes no
log record and leaves the raw-sample archive — and every other piece of
pipeline state — unchanged: the iteration is a no-op continuation. -/
theorem empty_block_no_effect (cfg : Cfg) (st : RState) (encOk wrOk : Bool) :
    blockStep cfg st [] encOk wrOk = Step.cont st := by
  cases st
  simp [blockStep, msgLoop]

/-- C10: a decoded message rejected by the filter chain has no
observable effect: processing a block's candidates with the rejected
message at the head is identical to processing the remaining
candidates alone, so the rejected message emits no log record, does not
mutate the single-observation identifier set, and cannot by itself make
the block archive its raw samples or terminate the run. -/
theorem rejected_message_no_effect (cfg : Cfg) (pos : Nat) (encOk : Bool)
    (seen ms : List Nat) (found : Bool) (p : Pkt) (rest : List Pkt)
    (hrej : (fcMatch cfg seen ms p).1 = false) :
    msgLoop cfg pos encOk seen ms found (p :: rest) =
      msgLoop cfg pos encOk seen ms found rest := by
  simp [msgLoop, hrej, fcMatch_false_seen cfg seen ms p hrej]

/-- Witness for C10: meter 99 is rejected by the identifier filter set
{42}; its presence at the head of a block changes nothing. -/
theorem rejected_message_no_effect_witness :
    (fcMatch cfgSingle [] [42] pktB).1 = false ∧
    msgLoop cfgSingle 0 true [] [42] false [pktB] =
      msgLoop cfgSingle 0 true [] [42] false [] :=
  ⟨by decide,
    rejected_message_no_effect cfgSingle 0 true [] [42] false pktB [] (by decide)⟩

/-- C2: when single-observation mode is requested with no configured
identifier set, startup aborts with a configuration error in
HandleFlags, which main calls before NewReceiver: the trace of
lifecycle actions is empty, so the device is never opened and the
acquisition loop is never entered. -/
theorem single_without_targets_aborts (cfg : Cfg) (evs : List Ev)
    (parserOk confOk cancelOk : Bool)
    (hs : cfg.single = true) (hids : cfg.meterIDs = []) :
    mainRun cfg evs parserOk confOk cancelOk = [] := by
  simp [mainRun, handleFlagsOk, hs, hids]

/-- Witness for C2: the concrete misconfiguration (single mode, empty
identifier set) produces no lifecycle actions even on a non-empty event
script. -/
theorem single_without_targets_aborts_witness :
    mainRun cfgSingleEmpty [Ev.block [pktA] true true] true true true = [] :=
  single_without_targets_aborts cfgSingleEmpty [Ev.block [pktA] true true]
    true true true rfl rfl

/-- C6: every log record emitted during a run carries Length equal to
the raw byte count of one processed block (BufferLength << 1), and
every raw-sample archive write appends exactly that many bytes, so the
Length field is the number of raw bytes corresponding to one block. -/
theorem log_length_is_raw_block_bytes (cfg : Cfg) (evs : List Ev) :
    (∀ m, LogItem.record m ∈ ((runLoop cfg (initState cfg) evs).state).out →
       m.Length = rawBlockBytes cfg) ∧
    (∀ w ∈ ((runLoop cfg (initState cfg) evs).state).archive,
       w = rawBlockBytes cfg) :=
  runLoop_good cfg evs (initState cfg)
    (by intro m hm; simp [initState] at hm)
    (by intro w hw; simp [initState] at hw)

/-- Witness for C6: a concrete run emits a record whose Length is the
raw block byte count of the configuration. -/
theorem log_length_is_raw_block_bytes_witness :
    LogItem.record ⟨0, 16, pktA⟩ ∈
      ((runLoop cfgPlain (initState cfgPlain)
        [Ev.block [pktA] true true]).state).out ∧
    (⟨0, 16, pktA⟩ : LogMessage).Length = rawBlockBytes cfgPlain :=
  ⟨by decide,
    (log_length_is_raw_block_bytes cfgPlain [Ev.block [pktA] true true]).1
      ⟨0, 16, pktA⟩ (by decide)⟩

/-- C7: the Offset of every log record a block emits is read before the
block's raw-sample write: each record the block appends carries Offset
equal to the archive position (total bytes written) at the start of the
block, and the block's single raw-sample append — when it happens —
starts exactly at that position. -/
theorem offset_read_before_block_write (cfg : Cfg) (st : RState)
    (pkts : List Pkt) (st' : RState)
    (hst : blockStep cfg st pkts true true = Step.cont st' ∨
           blockStep cfg st pkts true true = Step.stop st') :
    (∀ m, LogItem.record m ∈ st'.out → LogItem.record m ∉ st.out →
       m.Offset = st.archive.sum) ∧
    (st'.archive = st.archive ∨
     st'.archive = st.archive ++ [rawBlockBytes cfg]) := by
  rcases blockStep_cases cfg st pkts true true with hfa | ⟨r, hml, arc, harcs, hcase⟩
  · rcases hst with h | h <;> rw [hfa] at h <;> exact Step.noConfusion h
  · have hst' : st' = ⟨r.seen, r.meterSet, st.out ++ r.items, arc⟩ := by
      rcases hcase with hc | hc | hc <;> rcases hst with h | h <;>
        rw [hc] at h <;>
          first
            | exact Step.noConfusion h
            | (injection h with hh; exact hh.symm)
    subst hst'
    refine ⟨?_, harcs⟩
    intro m hm hnot
    have hmem : LogItem.record m ∈ r.items := by
      rcases List.mem_append.mp hm with h | h
      · exact absurd h hnot
      · exact h
    exact (msgLoop_rec_shape cfg st.archive.sum true pkts st.seen st.meterSet
      false r hml m hmem).1

/-- Witness for C7: in a concrete block the emitted record's Offset is
the archive position before the block's write. -/
theorem offset_read_before_block_write_witness :
    LogItem.record ⟨0, 16, pktA⟩ ∈
      (⟨[], [], [LogItem.record ⟨0, 16, pktA⟩], [16]⟩ : RState).out ∧
    (⟨0, 16, pktA⟩ : LogMessage).Offset = (initState cfgPlain).archive.sum :=
  ⟨by decide,
    (offset_read_before_block_write cfgPlain (initState cfgPlain) [pktA]
      ⟨[], [], [LogItem.record ⟨0, 16, pktA⟩], [16]⟩
      (Or.inl (by decide))).1 ⟨0, 16, pktA⟩ (by decide) (by decide)⟩

/-- C3: for every processed block, one log record is emitted per
accepted message (candidates are filtered and logged independently),
while the raw-sample archive is appended at most once for the whole
block — never once per accepted message — and it is appended exactly
when archiving is enabled and at least one message of the block was
accepted. -/
theorem archive_written_once_per_block (cfg : Cfg) (st : RState)
    (pkts : List Pkt) (st' : RState)
    (hst : blockStep cfg st pkts true true = Step.cont st' ∨
           blockStep cfg st pkts true true = Step.stop st') :
    recCount st'.out =
      recCount st.out + (acceptedPkts cfg st.seen st.meterSet pkts).length ∧
    (st'.archive = st.archive ∨
     st'.archive = st.archive ++ [rawBlockBytes cfg]) ∧
    ((st'.archive = st.archive ++ [rawBlockBytes cfg]) ↔
      (cfg.archiveEnabled = true ∧
       acceptedPkts cfg st.seen st.meterSet pkts ≠ [])) := by
  obtain ⟨r, hml, hitems, hfound, hmsf⟩ :=
    msgLoop_run cfg st.archive.sum pkts st.seen st.meterSet false
  rw [Bool.false_or] at hfound
  have hbe := blockStep_true_eq cfg st pkts r hml
  by_cases hf : r.found = true
  · have hne : acceptedPkts cfg st.seen st.meterSet pkts ≠ [] := by
      intro hnil
      rw [hf, hnil] at hfound
      simp at hfound
    by_cases hstop : (cfg.single && r.meterSet.isEmpty) = true
    · have hbs : blockStep cfg st pkts true true =
          Step.stop ⟨r.seen, r.meterSet, st.out ++ r.items,
            if cfg.archiveEnabled then st.archive ++ [rawBlockBytes cfg]
            else st.archive⟩ := by
        rw [hbe]
        simp [hf, hstop]
      have hz : st' = ⟨r.seen, r.meterSet, st.out ++ r.items,
          if cfg.archiveEnabled then st.archive ++ [rawBlockBytes cfg]
          else st.archive⟩ := by
        rcases hst with h | h <;> rw [hbs] at h <;>
          first
            | exact Step.noConfusion h
            | (injection h with hh; exact hh.symm)
      subst hz
      refine ⟨?_, ?_, ?_⟩
      · show recCount (st.out ++ r.items) = _
        rw [recCount_append, hitems, recCount_renderAll]
      · show (if cfg.archiveEnabled then st.archive ++ [rawBlockBytes cfg]
            else st.archive) = st.archive ∨ _
        cases hae : cfg.archiveEnabled <;> simp [hae]
      · cases hae : cfg.archiveEnabled with
        | true => simp [hae, hne]
        | false =>
          simp only [hae, if_false]
          exact iff_of_false (append_singleton_ne _ _) (by simp)
    · have hbs : blockStep cfg st pkts true true =
          Step.cont ⟨r.seen, r.meterSet, st.out ++ r.items,
            if cfg.archiveEnabled then st.archive ++ [rawBlockBytes cfg]
            else st.archive⟩ := by
        rw [hbe]
        simp [hf, hstop]
      have hz : st' = ⟨r.seen, r.meterSet, st.out ++ r.items,
          if cfg.archiveEnabled then st.archive ++ [rawBlockBytes cfg]
          else st.archive⟩ := by
        rcases hst with h | h <;> rw [hbs] at h <;>
          first
            | exact Step.noConfusion h
            | (injection h with hh; exact hh.symm)
      subst hz
      refine ⟨?_, ?_, ?_⟩
      · show recCount (st.out ++ r.items) = _
        rw [recCount_append, hitems, recCount_renderAll]
      · show (if cfg.archiveEnabled then st.archive ++ [rawBlockBytes cfg]
            else st.archive) = st.archive ∨ _
        cases hae : cfg.archiveEnabled <;> simp [hae]
      · cases hae : cfg.archiveEnabled with
        | true => simp [hae, hne]
        | false =>
          simp only [hae, if_false]
          exact iff_of_false (append_singleton_ne _ _) (by simp)
  · have hff : r.found = false := by simpa using hf
    have hemp : acceptedPkts cfg st.seen st.meterSet pkts = [] := by
      rw [hff] at hfound
      cases hx : (acceptedPkts cfg st.seen st.meterSet pkts).isEmpty with
      | true => exact isEmpty_true_eq_nil _ hx
      | false => rw [hx] at hfound; simp at hfound
    have hbs : blockStep cfg st pkts true true =
        Step.cont ⟨r.seen, r.meterSet, st.out ++ r.items, st.archive⟩ := by
      rw [hbe]
      simp [hff]
    have hz : st' = ⟨r.seen, r.meterSet, st.out ++ r.items, st.archive⟩ := by
      rcases hst with h | h <;> rw [hbs] at h <;>
        first
          | exact Step.noConfusion h
          | (injection h with hh; exact hh.symm)
    subst hz
    refine ⟨?_, Or.inl rfl, ?_⟩
    · show recCount (st.out ++ r.items) = _
      rw [hitems, hemp]
      simp [renderAll, recCount_append, recCount]
    · constructor
      · intro habs
        exact absurd habs (append_singleton_ne _ _)
      · rintro ⟨_, hacc⟩
        exact absurd hemp hacc

/-- Witness for C3: a concrete block with one accepted message emits
one record and appends the raw samples once. -/
theorem archive_written_once_per_block_witness :
    recCount (⟨[], [], [LogItem.record ⟨0, 16, pktA⟩], [16]⟩ : RState).out =
      recCount (initState cfgPlain).out +
        (acceptedPkts cfgPlain [] [] [pktA]).length ∧
    ((⟨[], [], [LogItem.record ⟨0, 16, pktA⟩], [16]⟩ : RState).archive =
        (initState cfgPlain).archive ++ [rawBlockBytes cfgPlain] ↔
      (cfgPlain.archiveEnabled = true ∧ acceptedPkts cfgPlain [] [] [pktA] ≠ [])) :=
  ⟨(archive_written_once_per_block cfgPlain (initState cfgPlain) [pktA]
      ⟨[], [], [LogItem.record ⟨0, 16, pktA⟩], [16]⟩ (Or.inl (by decide))).1,
   (archive_written_once_per_block cfgPlain (initState cfgPlain) [pktA]
      ⟨[], [], [LogItem.record ⟨0, 16, pktA⟩], [16]⟩ (Or.inl (by decide))).2.2⟩

/-- C4: in single-observation mode with a non-empty target set, over a
script of successfully processed blocks the receive loop returns
normally exactly on the block that empties the identifier set: a normal
return leaves the set empty; if the script ends with the loop still
running, the set is still non-empty (so the loop never stopped early);
no fatal exit occurs; and any terminating block has completed its log
records and its raw-sample append before the return. -/
theorem single_mode_stops_when_set_empties (cfg : Cfg) (hs : cfg.single = true)
    (st : RState) (hne : st.meterSet ≠ []) (evs : List Ev)
    (hok : evs.all evOk = true) :
    (∀ st', runLoop cfg st evs = Outcome.normal st' → st'.meterSet = []) ∧
    (∀ st', runLoop cfg st evs = Outcome.running st' → st'.meterSet ≠ []) ∧
    (∀ st', runLoop cfg st evs = Outcome.fatal st' → False) ∧
    (∀ st0 pkts st', blockStep cfg st0 pkts true true = Step.stop st' →
       st'.meterSet = [] ∧
       st'.out = st0.out ++ renderAll cfg st0.archive.sum
         (acceptedPkts cfg st0.seen st0.meterSet pkts) ∧
       (cfg.archiveEnabled = true →
         st'.archive = st0.archive ++ [rawBlockBytes cfg])) := by
  obtain ⟨ha, hb, hc⟩ := runLoop_single_inv cfg hs evs st hne hok
  exact ⟨ha, hb, hc, fun st0 pkts st' h => blockStep_stop_empty cfg st0 pkts st' h⟩

/-- Witness for C4: with target set {42}, a script whose second block
carries meter 42 terminates the run normally on that block with the set
emptied, the record logged and the raw samples archived. -/
theorem single_mode_stops_when_set_empties_witness :
    runLoop cfgSingle (initState cfgSingle)
        [Ev.block [pktB] true true, Ev.block [pktA] true true] =
      Outcome.normal ⟨[], [], [LogItem.record ⟨0, 16, pktA⟩], [16]⟩ ∧
    (⟨[], [], [LogItem.record ⟨0, 16, pktA⟩], [16]⟩ : RState).meterSet = [] :=
  ⟨by decide,
    (single_mode_stops_when_set_empties cfgSingle rfl (initState cfgSingle)
      (by decide) [Ev.block [pktB] true true, Ev.block [pktA] true true]
      (by decide)).1
      ⟨[], [], [LogItem.record ⟨0, 16, pktA⟩], [16]⟩ (by decide)⟩

/-- C5 counterexample: with single-observation mode targeting only
meter 42 (identifier filter set {42}), a block carrying messages from
meters 42 then 99 gets BOTH messages accepted and logged: deleting 42
empties the shared identifier set, the now-empty MeterIDFilter accepts
everything, so meter 99 is logged although its identifier was never in
the tracker (which only ever held 42). This refutes the claim that in
single-observation mode every accepted message's identifier is present
in the tracker. -/
theorem acceptance_without_membership :
    blockStep cfgSingle (initState cfgSingle) [pktA, pktB] true true =
      Step.stop ⟨[], [], [LogItem.record ⟨0, 16, pktA⟩,
        LogItem.record ⟨0, 16, pktB⟩], [16]⟩ ∧
    pktB.MeterID = 99 ∧ ¬(99 ∈ cfgSingle.meterIDs) := by decide

/-- C5 amended: while the tracker (the identifier set, shared with the
MeterIDFilter) is still non-empty, every message that passes the filter
chain does have its identifier in the set, and accepting it removes
that identifier from the set; only after the set has been emptied can a
message be accepted without membership (the per-block scan then breaks
without mutating the set). -/
theorem single_mode_removes_present_id (cfg : Cfg) (hs : cfg.single = true)
    (hfid : cfg.filterid = true) (seen ms : List Nat) (p : Pkt) (pos : Nat)
    (found : Bool) (hne : ms ≠ [])
    (hacc : (fcMatch cfg seen ms p).1 = true) :
    ms.contains p.MeterID = true ∧
    msgLoop cfg pos true seen ms found [p] =
      some ⟨(fcMatch cfg seen ms p).2, ms.filter (fun x => x != p.MeterID),
        renderOne cfg pos p, true⟩ ∧
    (ms.filter (fun x => x != p.MeterID)).contains p.MeterID = false := by
  have hmid : meterIDMatch ms p = true := by
    by_cases hm2 : meterIDMatch ms p = true
    · exact hm2
    · have : (fcMatch cfg seen ms p).1 = false := by
        have hm3 : meterIDMatch ms p = false := by simpa using hm2
        simp [fcMatch, hfid, hm3]
      rw [this] at hacc
      cases hacc
  constructor
  · rw [meterIDMatch, ne_nil_isEmpty_false ms hne, Bool.false_or] at hmid
    exact hmid
  constructor
  · simp [msgLoop, hacc, hs, ne_nil_isEmpty_false ms hne]
  · exact filter_ne_not_contains ms p.MeterID

/-- Witness for C5 (amended): meter 42 against set {42}: membership
holds, the step removes 42, and 42 is no longer in the filtered set. -/
theorem single_mode_removes_present_id_witness :
    ([42] : List Nat).contains pktA.MeterID = true ∧
    (([42] : List Nat).filter (fun x => x != pktA.MeterID)).contains
      pktA.MeterID = false :=
  ⟨(single_mode_removes_present_id cfgSingle rfl rfl [] [42] pktA 0 false
      (by decide) (by decide)).1,
   (single_mode_removes_present_id cfgSingle rfl rfl [] [42] pktA 0 false
      (by decide) (by decide)).2.2⟩

/-- C8 counterexample: recv-sdr.go decides the separator write by a
dynamic type test on the XML encoder (line 158), not by querying the
sink's declared capability: for a sink that declares it needs a record
separator but is not the XML encoder, the code writes no separator,
refuting the claim that the need is determined generically from the
sink's declared capability. -/
theorem separator_check_ignores_declared_need :
    writesSeparator ⟨false, true⟩ = false ∧
    Sink.needsSeparator ⟨false, true⟩ = true := by
  constructor
  · rfl
  · rfl

/-- C8 amended: a record separator is written after each encoded record
iff the active encoder is the XML one; since in this repository the XML
variant is exactly the format that requires a separator, the separator
is written iff the sink requires it — but the need is established by
the type test on the XML encoder, not generically. Accordingly, in the
message loop the number of separators emitted for a block equals the
number of records when the encoder is XML and is zero otherwise. -/
theorem separator_iff_xml (s : Sink) (hrepo : s.needsSeparator = s.isXML)
    (cfg : Cfg) (pos : Nat) (seen ms : List Nat) (found : Bool)
    (pkts : List Pkt) (r : MRes)
    (h : msgLoop cfg pos true seen ms found pkts = some r) :
    writesSeparator s = s.needsSeparator ∧
    sepCount r.items = (if cfg.xml then recCount r.items else 0) := by
  constructor
  · rw [hrepo]
    rfl
  · obtain ⟨r', hr', hitems, _, _⟩ := msgLoop_run cfg pos pkts seen ms found
    rw [hr'] at h
    injection h with hh
    rw [← hh, hitems, sepCount_renderAll, recCount_renderAll]

/-- Witness for C8 (amended): with the XML encoder, a concrete block
with one accepted message emits one record and one separator. -/
theorem separator_iff_xml_witness :
    sepCount [LogItem.record ⟨0, 16, pktA⟩, LogItem.sep] =
      (if cfgXml.xml then
        recCount [LogItem.record ⟨0, 16, pktA⟩, LogItem.sep] else 0) :=
  (separator_iff_xml ⟨true, true⟩ rfl cfgXml 0 [] [] false [pktA]
    ⟨[], [], [LogItem.record ⟨0, 16, pktA⟩, LogItem.sep], true⟩ (by decide)).2

/-- C1 counterexample: a short block read makes Receiver.Run call
log.Fatal, which exits the process at once; deferred functions do not
run on os.Exit, so the shutdown sequence of main never executes: the
lifecycle trace is just the device open — no log or archive close, no
producer cancellation, no device close. This refutes the claim that the
shutdown sequence executes on any fatal error during the run. -/
theorem shutdown_skipped_on_fatal_read :
    (runLoop cfgPlain (initState cfgPlain) [Ev.shortRead]).isFatal = true ∧
    mainRun cfgPlain [Ev.shortRead] true true true = [Act.openDev] ∧
    ¬(Act.closeDevice ∈ mainRun cfgPlain [Ev.shortRead] true true true) ∧
    ¬(Act.cancelAsync ∈ mainRun cfgPlain [Ev.shortRead] true true true) := by
  decide

/-- C1 amended: when Receiver.Run returns normally (interrupt, time
limit, or single-observation completion), main's deferred shutdown runs
in the fixed order: close the log sink, close the raw-sample archive,
cancel the asynchronous producer and wait for the cancellation call to
return, then close the device handle (the device close is skipped when
cancellation itself fails); when Run ends via log.Fatal the process
exits right after the device open with no shutdown actions; and in
every trace the device is closed only after producer cancellation has
returned. -/
theorem shutdown_order_on_normal_exit (cfg : Cfg) (evs : List Ev)
    (parserOk confOk cancelOk : Bool) :
    (handleFlagsOk cfg = true →
      ∀ st', runLoop cfg (initState cfg) evs = Outcome.normal st' →
        mainRun cfg evs true true cancelOk =
          Act.openDev :: shutdownActions cancelOk) ∧
    (handleFlagsOk cfg = true →
      ∀ st', runLoop cfg (initState cfg) evs = Outcome.fatal st' →
        mainRun cfg evs true true cancelOk = [Act.openDev]) ∧
    (Act.closeDevice ∈ mainRun cfg evs parserOk confOk cancelOk →
      (mainRun cfg evs parserOk confOk cancelOk).indexOf Act.cancelReturned <
        (mainRun cfg evs parserOk confOk cancelOk).indexOf Act.closeDevice) := by
  refine ⟨?_, ?_, ?_⟩
  · intro hfl st' hn
    simp [mainRun, hfl, hn]
  · intro hfl st' hn
    simp [mainRun, hfl, hn]
  · intro hmem
    by_cases hfl : handleFlagsOk cfg = true
    · cases parserOk with
      | false => simp [mainRun, hfl] at hmem
      | true =>
        cases confOk with
        | false => simp [mainRun, hfl] at hmem
        | true =>
          cases hr : runLoop cfg (initState cfg) evs with
          | normal st' =>
            cases cancelOk with
            | false =>
              rw [show mainRun cfg evs true true false =
                  [Act.openDev, Act.closeLog, Act.closeSample,
                   Act.cancelAsync, Act.cancelReturned] by
                simp [mainRun, hfl, hr, shutdownActions]] at hmem
              exact absurd hmem (by decide)
            | true =>
              rw [show mainRun cfg evs true true true =
                  [Act.openDev, Act.closeLog, Act.closeSample,
                   Act.cancelAsync, Act.cancelReturned, Act.closeDevice] by
                simp [mainRun, hfl, hr, shutdownActions]]
              decide
          | fatal st' => simp [mainRun, hfl, hr] at hmem
          | running st' => simp [mainRun, hfl, hr] at hmem
    · simp [mainRun, hfl] at hmem

/-- Witness for C1 (amended): an interrupt-terminated run produces the
full ordered shutdown trace. -/
theorem shutdown_order_on_normal_exit_witness :
    mainRun cfgPlain [Ev.sigint] true true true =
      Act.openDev :: shutdownActions true :=
  (shutdown_order_on_normal_exit cfgPlain [Ev.sigint] true true true).1
    (by decide) (initState cfgPlain) (by decide)
